import Mathlib

set_option maxRecDepth 8000

namespace Fawkes

/-!
Shallow embedding of the plonk gate compiler
(`src/fawkes-crypto/src/circuit/plonk/cs.rs`), of the backend synthesis bridge
(`src/fawkes-crypto/src/backend/plonk/mod.rs` and `halo2_circuit.rs`), and of
the compositional `Signal` lifting (`src/fawkes-crypto/src/core/signal.rs`).

The prime field `Num<Fr>` of the Rust code is modelled by an arbitrary
commutative ring `F` with decidable equality; concrete evaluations use
`ZMod 97`.  Rust `Vec::push` is `l ++ [a]`; the `assert!` calls and `unwrap`
are modelled with `Except`.
-/

/-- The linear-combination triple `(Num<Fr>, usize, Num<Fr>)` stored in
`CNum::lc`: `coeff` is component `.0` (the scalar), `idx` is `.1` (the witness
index), `cst` is `.2` (the additive constant).  It denotes the affine
expression `coeff * w[idx] + cst`. -/
structure LinComb (F : Type) where
  coeff : F
  idx : Nat
  cst : F
  deriving DecidableEq

/-- `CNum<Fr>` (its shape is visible in `CS::alloc`): an optional concrete
`value` together with the linear combination `lc`.  The `cs` handle field is
represented by explicit state passing instead of a shared reference. -/
structure CNum (F : Type) where
  value : Option F
  lc : LinComb F
  deriving DecidableEq

/-- `Gate` (cs.rs lines 20–30): the constraint
`a*x + b*y + c*z + d*x*y + e == 0` where `x`, `y`, `z` are witness indices. -/
structure Gate (F : Type) where
  a : F
  x : Nat
  b : F
  y : Nat
  c : F
  z : Nat
  d : F
  e : F
  deriving DecidableEq

/-- `CS<Fr>` (cs.rs lines 32–39), also called `BuildCS` by the backend. -/
structure CS (F : Type) where
  values : List (Option F)
  gates : List (Gate F)
  tracking : Bool
  public : List Nat
  deriving DecidableEq

/-- The failure of the tracking-mode `assert!` calls in the enforce functions
("Not satisfied constraint"). -/
inductive CSError
  | UnsatisfiedConstraint
  deriving DecidableEq

deriving instance DecidableEq for Except

/-- The `if rcs.tracking { match (x.value, y.value, z.value) { ... } }` check
shared verbatim by `enforce_generic`, `enforce_mul` and `enforce_add`:
when tracking is on and all three operand values are known, test the
identity `p`, failing with `UnsatisfiedConstraint` if it does not hold. -/
def trackCheck {F : Type} (tracking : Bool) (x y z : Option F)
    (p : F → F → F → Bool) : Except CSError Unit :=
  if tracking then
    match x, y, z with
    | some xv, some yv, some zv =>
        if p xv yv zv then .ok () else .error .UnsatisfiedConstraint
    | _, _, _ => .ok ()
  else .ok ()

/-- `CS::enforce_generic` (cs.rs lines 66–98).  The pushed gate reproduces the
source coefficients verbatim, including the trailing `+ y.2` term of the `a`
coefficient and the trailing `+ x.2` term of the `b` coefficient (`x.0`,
`x.2` are the components of the lc triple, see `LinComb`). -/
def enforce_generic {F : Type} [CommRing F] [DecidableEq F]
    (cs : CS F) (x y z : CNum F) (a b c d e : F) : Except CSError (CS F) :=
  (trackCheck cs.tracking x.value y.value z.value
      (fun xv yv zv => decide (a * xv + b * yv + c * zv + d * xv * yv + e = 0))).map
    (fun _ =>
      { cs with gates := cs.gates ++
          [{ a := a * x.lc.coeff + d * x.lc.coeff * y.lc.cst + y.lc.cst,
             x := x.lc.idx,
             b := b * y.lc.coeff + d * y.lc.coeff * x.lc.cst + x.lc.cst,
             y := y.lc.idx,
             c := c * z.lc.coeff,
             z := z.lc.idx,
             d := d * x.lc.coeff * y.lc.coeff,
             e := e + a * x.lc.cst + b * y.lc.cst + c * z.lc.cst +
                  d * x.lc.cst * y.lc.cst }] })

/-- `CS::enforce_mul` (cs.rs lines 101–121). -/
def enforce_mul {F : Type} [CommRing F] [DecidableEq F]
    (cs : CS F) (x y z : CNum F) : Except CSError (CS F) :=
  (trackCheck cs.tracking x.value y.value z.value
      (fun xv yv zv => decide (xv * yv = zv))).map
    (fun _ =>
      { cs with gates := cs.gates ++
          [{ a := x.lc.coeff * y.lc.cst,
             x := x.lc.idx,
             b := x.lc.cst * y.lc.coeff,
             y := y.lc.idx,
             c := -z.lc.coeff,
             z := z.lc.idx,
             d := x.lc.coeff * y.lc.coeff,
             e := x.lc.cst * y.lc.cst - z.lc.cst }] })

/-- `CS::enforce_add` (cs.rs lines 123–143). -/
def enforce_add {F : Type} [CommRing F] [DecidableEq F]
    (cs : CS F) (x y z : CNum F) : Except CSError (CS F) :=
  (trackCheck cs.tracking x.value y.value z.value
      (fun xv yv zv => decide (xv + yv = zv))).map
    (fun _ =>
      { cs with gates := cs.gates ++
          [{ a := x.lc.coeff,
             x := x.lc.idx,
             b := y.lc.coeff,
             y := y.lc.idx,
             c := -z.lc.coeff,
             z := z.lc.idx,
             d := 0,
             e := x.lc.cst + y.lc.cst - z.lc.cst }] })

/-- `CS::alloc` (cs.rs lines 157–167): appends the value to the witness vector
and returns the bare variable reference `(1, new_index, 0)`. -/
def alloc {F : Type} [CommRing F] (cs : CS F) (value : Option F) :
    CS F × CNum F :=
  ({ cs with values := cs.values ++ [value] },
   { value := value, lc := { coeff := 1, idx := cs.values.length, cst := 0 } })

/-- Modelled from the spec: `CNum::assert_eq` lives in `circuit/num.rs`, which
is not under `src/`.  Per spec §4.2 it adds one equality gate between its two
operands; we emit the gate asserting
`m.coeff*w[m.idx] + m.cst − (n.coeff*w[n.idx] + n.cst) = 0`
(the `z` slot is unused: coefficient 0). -/
def assert_eq {F : Type} [CommRing F] (cs : CS F) (m n : CNum F) : CS F :=
  { cs with gates := cs.gates ++
      [{ a := m.lc.coeff, x := m.lc.idx,
         b := -n.lc.coeff, y := n.lc.idx,
         c := 0, z := m.lc.idx,
         d := 0, e := m.lc.cst - n.lc.cst }] }

/-- `CS::inputize` (cs.rs lines 145–155): a bare variable reference is exposed
directly; otherwise a fresh variable holding `n`'s value is allocated
(`derive_alloc`, i.e. `CS::alloc`), equated to `n` (`assert_eq`), and the
fresh index is exposed. -/
def inputize {F : Type} [CommRing F] [DecidableEq F] (cs : CS F) (n : CNum F) :
    CS F :=
  if n.lc.coeff = 1 ∧ n.lc.cst = 0 then
    { cs with public := cs.public ++ [n.lc.idx] }
  else
    let p := alloc cs n.value
    let cs₂ := assert_eq p.1 p.2 n
    { cs₂ with public := cs₂.public ++ [p.2.lc.idx] }

/-- Value of a linear combination under a witness assignment. -/
def LinComb.eval {F : Type} [CommRing F] (l : LinComb F) (w : Nat → F) : F :=
  l.coeff * w l.idx + l.cst

/-- Satisfaction of one gate by a witness assignment: the row equation
`sel * (a*x + b*y + c*z + d*x*y + e) = 0` installed by
`FawkesGateConfig::config` (halo2_circuit.rs line 206), with the selector on. -/
def Gate.holds {F : Type} [CommRing F] (g : Gate F) (w : Nat → F) : Prop :=
  g.a * w g.x + g.b * w g.y + g.c * w g.z + g.d * (w g.x * w g.y) + g.e = 0

instance {F : Type} [CommRing F] [DecidableEq F] (g : Gate F) (w : Nat → F) :
    Decidable (g.holds w) := by
  unfold Gate.holds
  infer_instance

/-! ### Field conversion (`src/fawkes-crypto/src/backend/plonk/mod.rs` 18–52)

A prime field is abstracted by its modulus and the byte width of its
canonical little-endian encoding (`Fx::Inner` limbs × 8 bytes on the `Num`
side, `Fy::Repr` bytes on the halo side); an element is its canonical
unsigned integer. -/

/-- Little-endian base-256 digits of `v`, `w` bytes long (the canonical
fixed-width encoding; `u64::to_le_bytes` concatenated). -/
def natToBytesLE : Nat → Nat → List Nat
  | 0, _ => []
  | w + 1, v => v % 256 :: natToBytesLE w (v / 256)

/-- Integer denoted by a little-endian byte list (`u64::from_le_bytes`
concatenated). -/
def bytesToNatLE : List Nat → Nat
  | [] => 0
  | b :: bs => b + 256 * bytesToNatLE bs

/-- A `ff_uint` Num-side prime field `Fx`: modulus and the number of 64-bit
limbs of its canonical representation (`Fx::Inner` holds `limbs` u64 words,
so the canonical byte width is `8 * limbs`). -/
structure NumFieldSpec where
  modulus : Nat
  limbs : Nat
  deriving DecidableEq

/-- A halo2 `FieldExt` field `Fy`: modulus and the byte length of its
canonical little-endian representation `Fy::Repr`. -/
structure HaloFieldSpec where
  modulus : Nat
  reprBytes : Nat
  deriving DecidableEq

/-- Failures of the conversion: the `assert!` on representation widths
(mod.rs line 27 resp. 45), the slice-length panic of `copy_from_slice`
inside the forward copy loop (mod.rs line 30), and the `unwrap` of the
canonical decode (`from_repr_vartime` resp. `Num::from_uint`, lines 33
resp. 51). -/
inductive ConvError
  | IncompatibleFieldWidth
  | SliceLengthMismatch
  | DecodeError
  deriving DecidableEq

/-- Rust `dst[start..].copy_from_slice(src)`: replaces the tail of `dst`
beginning at `start` by `src`.  Rust panics — modelled as an error — when
the range start is out of bounds or the tail length differs from
`src.length`. -/
def copy_from_slice (dst : List Nat) (start : Nat) (src : List Nat) :
    Except ConvError (List Nat) :=
  if start ≤ dst.length ∧ dst.length - start = src.length then
    .ok (dst.take start ++ src)
  else .error .SliceLengthMismatch

/-- The `i`-th 64-bit limb of the canonical integer `v` (`buff_ref[i]`,
little-endian limb order). -/
def limb64 (v i : Nat) : Nat := v / 2 ^ (64 * i) % 2 ^ 64

/-- The copy loop of `num_to_halo_fp` (mod.rs 29–31):
`for i in 0..limbs { to_ref[8*i..].copy_from_slice(&buff_ref[i].to_le_bytes()) }`.
Note the destination slice is the whole tail from byte `8*i`, exactly as in
the source. -/
def copyLimbsLE (limbs : Nat) (v : Nat) (dst : List Nat) :
    Except ConvError (List Nat) :=
  (List.range limbs).foldlM
    (fun acc i => copy_from_slice acc (8 * i) (natToBytesLE 8 (limb64 v i)))
    dst

/-- `num_to_halo_fp` (mod.rs 18–34): check the two canonical encodings have
the same byte width (`buff_ref.len()*8 == to_ref.len()`), run the byte-copy
loop into the zero-initialised `Fy::Repr::default()`, and decode the bytes
under the destination's canonicity rule (`from_repr_vartime` succeeds
exactly when the integer is below the destination modulus). -/
def num_to_halo_fp (Fx : NumFieldSpec) (Fy : HaloFieldSpec) (v : Nat) :
    Except ConvError Nat :=
  if 8 * Fx.limbs = Fy.reprBytes then
    match copyLimbsLE Fx.limbs v (List.replicate Fy.reprBytes 0) with
    | .error e => .error e
    | .ok bytes =>
        if bytesToNatLE bytes < Fy.modulus then .ok (bytesToNatLE bytes)
        else .error .DecodeError
  else .error .IncompatibleFieldWidth

/-- `halo_fp_to_num` (mod.rs 36–52): the reverse direction.  Its loop reads
the correctly ranged 8-byte chunk `buff_ref[8*i..8*(i+1)]` per limb (never a
length mismatch once the width assert passes), reassembling exactly the
integer denoted by the canonical bytes of `v`; `Num::from_uint` succeeds
exactly when that integer is below the destination modulus. -/
def halo_fp_to_num (Fy : HaloFieldSpec) (Fx : NumFieldSpec) (v : Nat) :
    Except ConvError Nat :=
  if Fy.reprBytes = 8 * Fx.limbs then
    if bytesToNatLE (natToBytesLE Fy.reprBytes v) < Fx.modulus then
      .ok (bytesToNatLE (natToBytesLE Fy.reprBytes v))
    else .error .DecodeError
  else .error .IncompatibleFieldWidth

/-! ### Backend synthesis bridge: classification of variable references
(`src/fawkes-crypto/src/backend/plonk/mod.rs` 56–107 and
`halo2_circuit.rs` 21–131, 259–281) -/

/-- `p.sort()` (mod.rs line 64) / `itertools::sorted` (halo2_circuit.rs
line 265): ascending sort of the public-index list. -/
def sortPublic (l : List Nat) : List Nat := List.insertionSort (· ≤ ·) l

/-- `ValueReference` (halo2_circuit.rs 29–38): how one gate operand sources
its value.  `Value<F>` is modelled as `Option F`; an `AssignedCell` handle is
a cell number. -/
inductive ValueReference (F : Type) where
  | ValueAdvice (v : Option F)
  | ValueInstance (i : Nat)
  | ValueCell (c : Nat)
  deriving DecidableEq

/-- The loop of Rust `slice::binary_search` on the window `[lo, hi)` of `l`:
`.ok i` at an index holding `t`, `.error i` at the insertion point when the
window is exhausted.  `fuel` bounds the number of iterations; any
`fuel ≥ hi - lo` realises the unbounded loop (each step shrinks the
window). -/
def binarySearchGo (l : List Nat) (t : Nat) : Nat → Nat → Nat → Except Nat Nat
  | lo, _, 0 => .error lo
  | lo, hi, fuel + 1 =>
    if lo < hi then
      if l.getD ((lo + hi) / 2) 0 < t then
        binarySearchGo l t ((lo + hi) / 2 + 1) hi fuel
      else if t < l.getD ((lo + hi) / 2) 0 then
        binarySearchGo l t lo ((lo + hi) / 2) fuel
      else .ok ((lo + hi) / 2)
    else .error lo

/-- Rust `slice::binary_search` over the whole list. -/
def binary_search (l : List Nat) (t : Nat) : Except Nat Nat :=
  binarySearchGo l t 0 l.length l.length

/-- The `get_value` closure shared by `fawkes_cs_to_halo` (mod.rs 76–88) and
`extract_gates` (halo2_circuit.rs 107–117): a witness index found in the
sorted public list becomes an instance reference at the found position,
anything else an advice value.  The Rust `values.index(i)` presupposes
`i < values.len()`; out of bounds is rendered as an unknown advice value. -/
def get_value {F : Type} (values : List (Option F)) (public : List Nat)
    (i : Nat) : ValueReference F :=
  match binary_search public i with
  | .ok p => .ValueInstance p
  | .error _ => .ValueAdvice (values.getD i none)

/-- `FawkesGateValues` (halo2_circuit.rs 88–98): one gate with classified
operands and concrete coefficients. -/
structure FawkesGateValues (F : Type) where
  x : ValueReference F
  y : ValueReference F
  z : ValueReference F
  a : F
  b : F
  c : F
  d : F
  e : F
  deriving DecidableEq

/-- `HaloCS` — the backend circuit: its list of value-level gates. -/
structure HaloCS (F : Type) where
  gates : List (FawkesGateValues F)
  deriving DecidableEq

/-- `fawkes_cs_to_halo` (mod.rs 56–107): sort the public list, convert the
witness values, classify every gate operand via `get_value`, and collect the
public-input values.  The per-element field conversion `num_to_halo_fp` is
abstracted to a function `conv : F → F2`; its own failure modes are settled
separately (C7/C8). -/
def fawkes_cs_to_halo {F F2 : Type} (conv : F → F2) (cs : CS F) :
    HaloCS F2 × List (Option F2) :=
  let public := sortPublic cs.public
  let values := cs.values.map (Option.map conv)
  let g := cs.gates.map (fun gg =>
    ({ x := get_value values public gg.x,
       y := get_value values public gg.y,
       z := get_value values public gg.z,
       a := conv gg.a, b := conv gg.b, c := conv gg.c, d := conv gg.d,
       e := conv gg.e } : FawkesGateValues F2))
  let ins := public.map (fun i => values.getD i none)
  ({ gates := g }, ins)

/-- `extract_inputs` (halo2_circuit.rs 277–281): witness values at the
public indices, in ascending index order. -/
def extract_inputs {F : Type} (cs : CS F) : List (Option F) :=
  (sortPublic cs.public).map (fun i => cs.values.getD i none)

/-! ### Backend synthesis: cell assignment and copy constraints
(`halo2_circuit.rs` 40–83 and 212–275)

The halo2 region operations are modelled symbolically: `assign_advice`
creates a fresh cell; `assign_advice_from_instance` creates a fresh cell and
records a copy link from the given instance row; `copy_advice` creates a
fresh cell and records a cell-to-cell copy constraint.  Cells are numbered
in assignment order; cell values are irrelevant to the wiring and are not
tracked. -/

/-- The copy-constraint–relevant backend state during synthesis. -/
structure SynthState where
  nextCell : Nat
  copies : List (Nat × Nat)
  instLinks : List (Nat × Nat)
  deriving DecidableEq

/-- `ValueReference::assign` (halo2_circuit.rs 48–82): an advice value is
assigned to a fresh cell and memoized as `ValueCell`; an instance reference
is wired from the instance column into a fresh cell (no memoization, as in
the source); an already-placed cell is copy-constrained into a fresh cell.
Returns the updated reference (`*self`), the cell filled at this use site,
and the new backend state. -/
def ValueReference.assign {F : Type} (vr : ValueReference F)
    (st : SynthState) : ValueReference F × Nat × SynthState :=
  match vr with
  | .ValueAdvice _ =>
      (.ValueCell st.nextCell, st.nextCell,
       { st with nextCell := st.nextCell + 1 })
  | .ValueInstance i =>
      (vr, st.nextCell,
       { st with nextCell := st.nextCell + 1,
                 instLinks := st.instLinks ++ [(i, st.nextCell)] })
  | .ValueCell c0 =>
      (vr, st.nextCell,
       { st with nextCell := st.nextCell + 1,
                 copies := st.copies ++ [(c0, st.nextCell)] })

/-- `FawkesGateValues::extract_gates` (halo2_circuit.rs 100–131): classifies
every operand of every gate with a fresh `get_value` call — one independent
`ValueReference` per operand use. -/
def extract_gates {F : Type} (values : List (Option F)) (gates : List (Gate F))
    (public : List Nat) : List (FawkesGateValues F) :=
  gates.map (fun g =>
    ({ x := get_value values public g.x,
       y := get_value values public g.y,
       z := get_value values public g.z,
       a := g.a, b := g.b, c := g.c, d := g.d,
       e := g.e } : FawkesGateValues F))

/-- `FawkesGateConfig::synthesize` (halo2_circuit.rs 212–239) for one gate:
assign this gate's `x`, `y`, `z` references in order.  The mutated
references live only inside this gate's `FawkesGateValues`, which
`Circuit::synthesize` consumes and drops per loop iteration.  Returns the
three cells used. -/
def synthGate {F : Type} (g : FawkesGateValues F) (st : SynthState) :
    (Nat × Nat × Nat) × SynthState :=
  let rx := g.x.assign st
  let ry := g.y.assign rx.2.2
  let rz := g.z.assign ry.2.2
  ((rx.2.1, ry.2.1, rz.2.1), rz.2.2)

/-- The gate loop of `Circuit::synthesize` (halo2_circuit.rs 269–272),
additionally recording which backend cell was filled for which witness index
(pairing each original `Gate`'s indices with the cells its value-level
counterpart receives). -/
def synthLoop {F : Type} :
    List (Gate F × FawkesGateValues F) → SynthState → List (Nat × Nat) →
    List (Nat × Nat) × SynthState
  | [], st, placed => (placed, st)
  | (g, gv) :: rest, st, placed =>
      synthLoop rest (synthGate gv st).2
        (placed ++ [(g.x, (synthGate gv st).1.1),
                    (g.y, (synthGate gv st).1.2.1),
                    (g.z, (synthGate gv st).1.2.2)])

/-- `<BuildCS as Circuit>::synthesize` (halo2_circuit.rs 259–275): sort the
public list, extract the value-level gates, synthesize them in order from a
fresh backend state.  Returns the (witness index, cell) placement record and
the final backend state. -/
def synthesize {F : Type} (cs : CS F) : List (Nat × Nat) × SynthState :=
  synthLoop
    (cs.gates.zip (extract_gates cs.values cs.gates (sortPublic cs.public)))
    { nextCell := 0, copies := [], instLinks := [] } []

/-- One copy-constraint step between two cells: an emitted cell-to-cell copy
in either orientation, or both cells wired from the same instance row. -/
def CellLink (st : SynthState) (c1 c2 : Nat) : Prop :=
  (c1, c2) ∈ st.copies ∨ (c2, c1) ∈ st.copies ∨
    ∃ i, (i, c1) ∈ st.instLinks ∧ (i, c2) ∈ st.instLinks

/-- Two cells are linked when the equivalence closure of the emitted copy
constraints relates them. -/
def Linked (st : SynthState) : Nat → Nat → Prop :=
  Relation.EqvGen (CellLink st)

/-- A gate referencing witness index 0 in all three slots, over `ZMod 97`. -/
def c1U : Gate (ZMod 97) :=
  { a := 1, x := 0, b := 1, y := 0, c := 1, z := 0, d := 0, e := 0 }

/-- A frozen constraint system whose single (non-public) witness index 0 is
used by two gates. -/
def c1cs : CS (ZMod 97) :=
  { values := [some 1], gates := [c1U, c1U], tracking := false, public := [] }

/-! ### Compositional Signal lifting over SizedVec
(`src/fawkes-crypto/src/core/signal.rs` lines 9–109)

The component type `T` and its `Signal` operations are abstracted by
functions: `csOf` is `T::get_cs`, `fromConst` is `T::from_const`, `allocT`
is `T::alloc`, `isEqT` is `T::is_eq`, `andB` is `&=` on `CBool`.  The Rust
indexing `self[0]`, which panics on an empty vector, is modelled with
`Option`. -/

/-- `SizedVec<T, L>`: a collection of exactly `L` components. -/
structure SizedVec (T : Type) (L : Nat) where
  items : List T
  len_eq : items.length = L

/-- `SizedVec::get_cs` (signal.rs 67–69): reads component `self[0]`;
out-of-bounds (`L = 0`) yields `none`. -/
def SizedVec.get_cs {T H : Type} {L : Nat} (csOf : T → H)
    (v : SizedVec T L) : Option H :=
  (v.items[0]?).map csOf

/-- `Signal::derive_const` (signal.rs 18–21):
`T::from_const(self.get_cs(), value)`. -/
def SizedVec.derive_const {T H V K : Type} {L : Nat} (csOf : T → H)
    (fromConst : H → V → K) (v : SizedVec T L) (value : V) : Option K :=
  (v.get_cs csOf).map (fun c => fromConst c value)

/-- `Signal::derive_alloc` (signal.rs 47–50):
`T::alloc(self.get_cs(), value)`. -/
def SizedVec.derive_alloc {T H V K : Type} {L : Nat} (csOf : T → H)
    (allocT : H → Option V → K) (v : SizedVec T L) (value : Option V) :
    Option K :=
  (v.get_cs csOf).map (fun c => allocT c value)

/-- `SizedVec::is_eq` (signal.rs 102–108): seeds
`acc = self.derive_const(true)` and folds `acc &= self[i].is_eq(other[i])`
over `i = 0..L`; the loop body is rendered as `zipWith`, both item lists
having length `L`. -/
def SizedVec.is_eq {T H B : Type} {L : Nat} (csOf : T → H)
    (fromConstB : H → Bool → B) (andB : B → B → B) (isEqT : T → T → B)
    (v w : SizedVec T L) : Option B :=
  (v.derive_const csOf fromConstB true).map
    (fun acc => (List.zipWith isEqT v.items w.items).foldl andB acc)

/-! Concrete fixtures over `ZMod 97` used by the witness and counterexample
theorems below. -/

/-- A non-tracking constraint system with two witness values, one public
index. -/
def csP : CS (ZMod 97) :=
  { values := [some 4, some 5], gates := [], tracking := false, public := [1] }

/-- The bare variable reference `w[0]` (scalar 1, constant 0). -/
def n1 : CNum (ZMod 97) := { value := some 4, lc := { coeff := 1, idx := 0, cst := 0 } }

/-- A frozen constraint system with three witness slots, public indices
`[2, 0]` (inserted out of order), and one gate touching all three slots. -/
def cs5W : CS (ZMod 97) :=
  { values := [some 5, none, some 7],
    gates := [{ a := 1, x := 0, b := 1, y := 1, c := 1, z := 2, d := 0,
                e := 0 }],
    tracking := false, public := [2, 0] }

/-- Operand `w[0] + 1` with known value `2`. -/
def c2x : CNum (ZMod 97) :=
  { value := some 2, lc := { coeff := 1, idx := 0, cst := 1 } }

/-- Operand `w[1] + 1` with known value `3`. -/
def c2y : CNum (ZMod 97) :=
  { value := some 3, lc := { coeff := 1, idx := 1, cst := 1 } }

/-- Operand `w[2]` with known value `0`. -/
def c2z : CNum (ZMod 97) :=
  { value := some 0, lc := { coeff := 1, idx := 2, cst := 0 } }

/-- A tracking constraint system over `ZMod 97` with witness `[1, 2, 0]`. -/
def c2cs : CS (ZMod 97) :=
  { values := [some 1, some 2, some 0], gates := [], tracking := true,
    public := [] }

/-- The witness assignment `w = [1, 2, 0]` matching `c2cs.values`. -/
def c2w : Nat → ZMod 97 := fun i => (([1, 2, 0] : List (ZMod 97)).getD i 0)

/-- The gate that `enforce_generic c2cs c2x c2y c2z 0 0 0 0 0` emits. -/
def c2BadGate : Gate (ZMod 97) :=
  { a := 1, x := 0, b := 1, y := 1, c := 0, z := 2, d := 0, e := 0 }

/-- An empty, non-tracking constraint system over `ZMod 97`. -/
def csW : CS (ZMod 97) :=
  { values := [], gates := [], tracking := false, public := [] }

/-- Operand `2*w[0] + 3`, value unknown. -/
def xW : CNum (ZMod 97) := { value := none, lc := { coeff := 2, idx := 0, cst := 3 } }

/-- Operand `5*w[1] + 7`, value unknown. -/
def yW : CNum (ZMod 97) := { value := none, lc := { coeff := 5, idx := 1, cst := 7 } }

/-- Operand `11*w[2] + 13`, value unknown. -/
def zW : CNum (ZMod 97) := { value := none, lc := { coeff := 11, idx := 2, cst := 13 } }

/-- Result of `enforce_mul csW xW yW zW`. -/
def csMulResW : CS (ZMod 97) :=
  { values := [], gates :=
      [{ a := 14, x := 0, b := 15, y := 1, c := 86, z := 2, d := 10, e := 8 }],
    tracking := false, public := [] }

/-- Result of `enforce_add csW xW yW zW`. -/
def csAddResW : CS (ZMod 97) :=
  { values := [], gates :=
      [{ a := 2, x := 0, b := 5, y := 1, c := 86, z := 2, d := 0, e := 94 }],
    tracking := false, public := [] }

/-- Result of `enforce_generic csW xW yW zW 1 2 3 4 5`. -/
def csGenResW : CS (ZMod 97) :=
  { values := [], gates :=
      [{ a := 65, x := 0, b := 73, y := 1, c := 33, z := 2, d := 40, e := 48 }],
    tracking := false, public := [] }

/-! ### Helper lemmas -/

theorem except_map_ok_elim {α : Type} {c : Except CSError Unit} {f : Unit → α}
    {v : α} (h : c.map f = .ok v) : v = f () := by
  cases c with
  | ok u => cases u; exact (Except.ok.inj h).symm
  | error e => simp [Except.map] at h

theorem except_map_error_iff {α : Type} (c : Except CSError Unit)
    (f : Unit → α) (e : CSError) : c.map f = .error e ↔ c = .error e := by
  cases c <;> simp [Except.map]

theorem inputize_eq_pos {F : Type} [CommRing F] [DecidableEq F] (cs : CS F)
    (n : CNum F) (h : n.lc.coeff = 1 ∧ n.lc.cst = 0) :
    inputize cs n = { cs with public := cs.public ++ [n.lc.idx] } := by
  rw [inputize, if_pos h]

theorem inputize_eq_neg {F : Type} [CommRing F] [DecidableEq F] (cs : CS F)
    (n : CNum F) (h : ¬(n.lc.coeff = 1 ∧ n.lc.cst = 0)) :
    inputize cs n =
      { values := cs.values ++ [n.value],
        gates := cs.gates ++
          [{ a := 1, x := cs.values.length, b := -n.lc.coeff, y := n.lc.idx,
             c := 0, z := cs.values.length, d := 0, e := 0 - n.lc.cst }],
        tracking := cs.tracking,
        public := cs.public ++ [cs.values.length] } := by
  rw [inputize, if_neg h]
  rfl

theorem trackCheck_error_iff {F : Type} (t : Bool) (x y z : Option F)
    (p : F → F → F → Bool) :
    trackCheck t x y z p = .error .UnsatisfiedConstraint ↔
      t = true ∧ ∃ xv yv zv, x = some xv ∧ y = some yv ∧ z = some zv ∧
        p xv yv zv = false := by
  unfold trackCheck
  cases t with
  | false => simp
  | true =>
    cases x with
    | none => simp
    | some xv =>
      cases y with
      | none => simp
      | some yv =>
        cases z with
        | none => simp
        | some zv =>
          by_cases hp : p xv yv zv = true
          · simp [hp]
          · rw [Bool.not_eq_true] at hp
            simp [hp]

theorem sorted_getD_mono {l : List Nat} (hs : l.Sorted (· ≤ ·)) {i j : Nat}
    (hij : i ≤ j) (hj : j < l.length) : l.getD i 0 ≤ l.getD j 0 := by
  have hi : i < l.length := lt_of_le_of_lt hij hj
  rw [List.getD_eq_getElem l 0 hi, List.getD_eq_getElem l 0 hj]
  have h := hs.rel_get_of_le (a := ⟨i, hi⟩) (b := ⟨j, hj⟩)
    (Fin.mk_le_mk.mpr hij)
  simpa using h

theorem binarySearchGo_ok {l : List Nat} {t : Nat} :
    ∀ {fuel lo hi p : Nat}, binarySearchGo l t lo hi fuel = .ok p →
      lo ≤ p ∧ p < hi ∧ l.getD p 0 = t := by
  intro fuel
  induction fuel with
  | zero =>
    intro lo hi p h
    simp [binarySearchGo] at h
  | succ fuel ih =>
    intro lo hi p h
    rw [binarySearchGo] at h
    by_cases hlh : lo < hi
    · rw [if_pos hlh] at h
      by_cases h1 : l.getD ((lo + hi) / 2) 0 < t
      · rw [if_pos h1] at h
        obtain ⟨ha, hb, hc⟩ := ih h
        exact ⟨by omega, hb, hc⟩
      · by_cases h2 : t < l.getD ((lo + hi) / 2) 0
        · rw [if_neg h1, if_pos h2] at h
          obtain ⟨ha, hb, hc⟩ := ih h
          exact ⟨ha, by omega, hc⟩
        · rw [if_neg h1, if_neg h2] at h
          have hp := Except.ok.inj h
          subst hp
          exact ⟨by omega, by omega, by omega⟩
    · rw [if_neg hlh] at h
      simp at h

theorem binarySearchGo_complete {l : List Nat} (hs : l.Sorted (· ≤ ·))
    {t : Nat} :
    ∀ {fuel lo hi : Nat}, hi - lo ≤ fuel → hi ≤ l.length →
      (∃ j, lo ≤ j ∧ j < hi ∧ l.getD j 0 = t) →
      ∃ p, binarySearchGo l t lo hi fuel = .ok p := by
  intro fuel
  induction fuel with
  | zero =>
    rintro lo hi hfuel hhi ⟨j, hj1, hj2, hj3⟩
    omega
  | succ fuel ih =>
    rintro lo hi hfuel hhi ⟨j, hj1, hj2, hj3⟩
    have hlh : lo < hi := lt_of_le_of_lt hj1 hj2
    rw [binarySearchGo, if_pos hlh]
    by_cases h1 : l.getD ((lo + hi) / 2) 0 < t
    · rw [if_pos h1]
      apply ih (by omega) hhi
      refine ⟨j, ?_, hj2, hj3⟩
      by_contra hle
      have hj4 : l.getD j 0 ≤ l.getD ((lo + hi) / 2) 0 :=
        sorted_getD_mono hs (by omega) (by omega)
      omega
    · by_cases h2 : t < l.getD ((lo + hi) / 2) 0
      · rw [if_neg h1, if_pos h2]
        apply ih (by omega) (by omega)
        refine ⟨j, hj1, ?_, hj3⟩
        by_contra hge
        have hj4 : l.getD ((lo + hi) / 2) 0 ≤ l.getD j 0 :=
          sorted_getD_mono hs (by omega) (by omega)
        omega
      · rw [if_neg h1, if_neg h2]
        exact ⟨_, rfl⟩

theorem binary_search_ok {l : List Nat} {t p : Nat}
    (h : binary_search l t = .ok p) : p < l.length ∧ l.getD p 0 = t := by
  obtain ⟨h1, h2, h3⟩ := binarySearchGo_ok h
  exact ⟨h2, h3⟩

theorem binary_search_mem {l : List Nat} (hs : l.Sorted (· ≤ ·)) {t : Nat}
    (ht : t ∈ l) : ∃ p, binary_search l t = .ok p := by
  obtain ⟨j, hj, hgj⟩ := List.mem_iff_getElem.mp ht
  exact binarySearchGo_complete hs (le_refl _) (le_refl _)
    ⟨j, Nat.zero_le _, hj, by rw [List.getD_eq_getElem l 0 hj, hgj]⟩

theorem getD_map_conv {F F2 : Type} (conv : F → F2) (l : List (Option F))
    (i : Nat) :
    (l.map (Option.map conv)).getD i none = (l.getD i none).map conv := by
  rcases Nat.lt_or_ge i l.length with hlt | hge
  · rw [List.getD_eq_getElem _ _ (by simpa using hlt),
      List.getD_eq_getElem _ _ hlt, List.getElem_map]
  · rw [List.getD_eq_default _ _ (by simpa using hge),
      List.getD_eq_default _ _ hge]
    rfl

theorem linked_of_no_constraints {st : SynthState} (hc : st.copies = [])
    (hi : st.instLinks = []) {a b : Nat} (h : Linked st a b) : a = b := by
  induction h with
  | rel x y hxy =>
    rcases hxy with h1 | h1 | ⟨i, h1, h2⟩
    · rw [hc] at h1
      simp at h1
    · rw [hc] at h1
      simp at h1
    · rw [hi] at h1
      simp at h1
  | refl x => rfl
  | symm x y _ ih => exact ih.symm
  | trans x y z _ _ ih1 ih2 => exact ih1.trans ih2

/-! ### Claim theorems -/

/-- Claim C1 (code bug evidence): `extract_gates` builds a fresh
`ValueReference` for every gate operand, so the memoized `ValueCell` branch
of `ValueReference::assign` can never fire across two uses of the same
witness index.  At the concrete system `c1cs`, whose non-public witness
index 0 is used by two gates, synthesis fills six independent advice cells
— among them cells 0 and 3 both standing for index 0 — and emits no copy
constraint at all, so the two cells are not linked, contrary to the claimed
invariant (and to the doc comment on `ValueReference`). -/
theorem c1_reused_index_cells_unlinked :
    (0, 0) ∈ (synthesize c1cs).1 ∧
    (0, 3) ∈ (synthesize c1cs).1 ∧
    (synthesize c1cs).2.copies = [] ∧
    (synthesize c1cs).2.instLinks = [] ∧
    ¬ Linked (synthesize c1cs).2 0 3 := by
  refine ⟨by decide, by decide, by decide, by decide, ?_⟩
  intro h
  have h03 := linked_of_no_constraints (by decide) (by decide) h
  exact absurd h03 (by decide)

/-- Claim C2 (code bug evidence): `enforce_generic` is supposed to emit a gate
asserting the raw equation `a·X + b·Y + c·Z + d·X·Y + e = 0` over the
operands' affine values, but the `a` and `b` coefficients it pushes carry the
stray trailing terms `+ y.2` and `+ x.2`.  Concretely: with operands
`x = w0+1`, `y = w1+1`, `z = w2` and all five coefficients `0`, the raw
equation holds for every witness, yet the emitted gate is `w0 + w1 = 0`,
which the witness `w = [1, 2, 0]` violates. -/
theorem c2_generic_gate_is_not_raw_equation :
    enforce_generic c2cs c2x c2y c2z 0 0 0 0 0 = Except.ok
      { values := [some 1, some 2, some 0], gates := [c2BadGate],
        tracking := true, public := [] } ∧
    (0 * c2x.lc.eval c2w + 0 * c2y.lc.eval c2w + 0 * c2z.lc.eval c2w +
      0 * (c2x.lc.eval c2w * c2y.lc.eval c2w) + 0 = 0) ∧
    ¬ c2BadGate.holds c2w := by
  refine ⟨by decide, by decide, by decide⟩

/-- Claim C3: `enforce_mul x y z` appends the single gate with coefficients
`a = a0·c1, b = b0·c0, c = −g0, d = a0·b0, e = c0·c1 − c2` over the indices
`(ix, iy, iz)`, and `enforce_add` appends the gate with
`a = a0, b = b0, c = −g0, d = 0, e = c0 + c1 − c2`, where
`x = (a0, ix, c0)`, `y = (b0, iy, c1)`, `z = (g0, iz, c2)`. -/
theorem c3_mul_add_gate_coefficients {F : Type} [CommRing F] [DecidableEq F]
    (cs : CS F) (x y z : CNum F) :
    (∀ cs₁, enforce_mul cs x y z = .ok cs₁ →
      cs₁.gates = cs.gates ++
        [{ a := x.lc.coeff * y.lc.cst,
           x := x.lc.idx,
           b := y.lc.coeff * x.lc.cst,
           y := y.lc.idx,
           c := -z.lc.coeff,
           z := z.lc.idx,
           d := x.lc.coeff * y.lc.coeff,
           e := x.lc.cst * y.lc.cst - z.lc.cst }]) ∧
    (∀ cs₂, enforce_add cs x y z = .ok cs₂ →
      cs₂.gates = cs.gates ++
        [{ a := x.lc.coeff,
           x := x.lc.idx,
           b := y.lc.coeff,
           y := y.lc.idx,
           c := -z.lc.coeff,
           z := z.lc.idx,
           d := 0,
           e := x.lc.cst + y.lc.cst - z.lc.cst }]) := by
  constructor
  · intro cs₁ h
    have hv := except_map_ok_elim h
    rw [hv, mul_comm y.lc.coeff x.lc.cst]
  · intro cs₂ h
    have hv := except_map_ok_elim h
    rw [hv]

/-- Claim C3 witness: both branches evaluated at the concrete operands
`xW = 2·w0+3`, `yW = 5·w1+7`, `zW = 11·w2+13` over `ZMod 97`. -/
theorem c3_mul_add_gate_coefficients_witness :
    csMulResW.gates = csW.gates ++
      [{ a := 14, x := 0, b := 15, y := 1, c := 86, z := 2, d := 10, e := 8 }] ∧
    csAddResW.gates = csW.gates ++
      [{ a := 2, x := 0, b := 5, y := 1, c := 86, z := 2, d := 0, e := 94 }] :=
  ⟨(c3_mul_add_gate_coefficients csW xW yW zW).1 csMulResW (by decide),
   (c3_mul_add_gate_coefficients csW xW yW zW).2 csAddResW (by decide)⟩

/-- Claim C4: each of `enforce_mul`, `enforce_add`, `enforce_generic` fails
with `UnsatisfiedConstraint` exactly when tracking is enabled, all three
operand values are known, and the asserted identity (`x·y = z`, `x+y = z`,
`a·x + b·y + c·z + d·x·y + e = 0` respectively) fails on those values;
in particular with tracking off or any operand unknown the call never fails. -/
theorem c4_tracking_failure_characterization {F : Type} [CommRing F]
    [DecidableEq F] (cs : CS F) (x y z : CNum F) (a b c d e : F) :
    (enforce_mul cs x y z = .error .UnsatisfiedConstraint ↔
      cs.tracking = true ∧ ∃ xv yv zv, x.value = some xv ∧ y.value = some yv ∧
        z.value = some zv ∧ xv * yv ≠ zv) ∧
    (enforce_add cs x y z = .error .UnsatisfiedConstraint ↔
      cs.tracking = true ∧ ∃ xv yv zv, x.value = some xv ∧ y.value = some yv ∧
        z.value = some zv ∧ xv + yv ≠ zv) ∧
    (enforce_generic cs x y z a b c d e = .error .UnsatisfiedConstraint ↔
      cs.tracking = true ∧ ∃ xv yv zv, x.value = some xv ∧ y.value = some yv ∧
        z.value = some zv ∧ a * xv + b * yv + c * zv + d * xv * yv + e ≠ 0) := by
  refine ⟨?_, ?_, ?_⟩
  · rw [enforce_mul, except_map_error_iff, trackCheck_error_iff]
    simp only [decide_eq_false_iff_not]
  · rw [enforce_add, except_map_error_iff, trackCheck_error_iff]
    simp only [decide_eq_false_iff_not]
  · rw [enforce_generic, except_map_error_iff, trackCheck_error_iff]
    simp only [decide_eq_false_iff_not]

/-- Claim C9: every successful enforce call appends exactly one gate and
leaves the witness vector, the public-index list and the tracking flag
unchanged. -/
theorem c9_enforce_frame {F : Type} [CommRing F] [DecidableEq F]
    (cs : CS F) (x y z : CNum F) (a b c d e : F) :
    (∀ cs₁, enforce_mul cs x y z = .ok cs₁ →
      cs₁.values = cs.values ∧ cs₁.public = cs.public ∧
      cs₁.tracking = cs.tracking ∧ ∃ g, cs₁.gates = cs.gates ++ [g]) ∧
    (∀ cs₂, enforce_add cs x y z = .ok cs₂ →
      cs₂.values = cs.values ∧ cs₂.public = cs.public ∧
      cs₂.tracking = cs.tracking ∧ ∃ g, cs₂.gates = cs.gates ++ [g]) ∧
    (∀ cs₃, enforce_generic cs x y z a b c d e = .ok cs₃ →
      cs₃.values = cs.values ∧ cs₃.public = cs.public ∧
      cs₃.tracking = cs.tracking ∧ ∃ g, cs₃.gates = cs.gates ++ [g]) := by
  refine ⟨?_, ?_, ?_⟩ <;> intro cs₁ h <;> rw [except_map_ok_elim h] <;>
    exact ⟨rfl, rfl, rfl, _, rfl⟩

/-- Claim C9 witness: all three enforce calls evaluated at the concrete
operands `xW`, `yW`, `zW` over `ZMod 97`. -/
theorem c9_enforce_frame_witness :
    (csMulResW.values = csW.values ∧ csMulResW.public = csW.public ∧
      csMulResW.tracking = csW.tracking ∧
      ∃ g, csMulResW.gates = csW.gates ++ [g]) ∧
    (csAddResW.values = csW.values ∧ csAddResW.public = csW.public ∧
      csAddResW.tracking = csW.tracking ∧
      ∃ g, csAddResW.gates = csW.gates ++ [g]) ∧
    (csGenResW.values = csW.values ∧ csGenResW.public = csW.public ∧
      csGenResW.tracking = csW.tracking ∧
      ∃ g, csGenResW.gates = csW.gates ++ [g]) :=
  ⟨(c9_enforce_frame csW xW yW zW 1 2 3 4 5).1 csMulResW (by decide),
   (c9_enforce_frame csW xW yW zW 1 2 3 4 5).2.1 csAddResW (by decide),
   (c9_enforce_frame csW xW yW zW 1 2 3 4 5).2.2 csGenResW (by decide)⟩

/-- Claim C6: `inputize n` appends `n`'s own index to the public list when
`n` is a bare variable reference (scalar 1, constant 0); otherwise it
allocates a fresh variable holding `n`'s value, emits an equality gate
between the fresh variable and `n`, and appends the fresh index; hence
public indices always name allocated witness slots. -/
theorem c6_inputize_exposes_pure_witness_slots {F : Type} [CommRing F]
    [DecidableEq F] (cs : CS F) (n : CNum F) :
    (n.lc.coeff = 1 ∧ n.lc.cst = 0 →
      inputize cs n = { cs with public := cs.public ++ [n.lc.idx] }) ∧
    (¬(n.lc.coeff = 1 ∧ n.lc.cst = 0) →
      inputize cs n =
        { values := cs.values ++ [n.value],
          gates := cs.gates ++
            [{ a := 1, x := cs.values.length, b := -n.lc.coeff, y := n.lc.idx,
               c := 0, z := cs.values.length, d := 0, e := 0 - n.lc.cst }],
          tracking := cs.tracking,
          public := cs.public ++ [cs.values.length] }) ∧
    ((∀ i ∈ cs.public, i < cs.values.length) → n.lc.idx < cs.values.length →
      ∀ i ∈ (inputize cs n).public, i < (inputize cs n).values.length) := by
  refine ⟨inputize_eq_pos cs n, inputize_eq_neg cs n, ?_⟩
  · intro hpub hn i hi
    by_cases h : n.lc.coeff = 1 ∧ n.lc.cst = 0
    · rw [inputize_eq_pos cs n h] at hi ⊢
      replace hi : i ∈ cs.public ++ [n.lc.idx] := hi
      show i < cs.values.length
      rcases List.mem_append.mp hi with hmem | hmem
      · exact hpub i hmem
      · rcases List.mem_singleton.mp hmem with rfl
        exact hn
    · rw [inputize_eq_neg cs n h] at hi ⊢
      replace hi : i ∈ cs.public ++ [cs.values.length] := hi
      show i < (cs.values ++ [n.value]).length
      rw [List.length_append, List.length_singleton]
      rcases List.mem_append.mp hi with hmem | hmem
      · have hlt := hpub i hmem
        omega
      · rcases List.mem_singleton.mp hmem with rfl
        omega

/-- Claim C6 witness: both branches of `inputize` and the bounds preservation
evaluated at concrete inputs over `ZMod 97` (`n1` bare, `xW` composite). -/
theorem c6_inputize_witness :
    inputize csP n1 =
      { values := [some 4, some 5], gates := [], tracking := false,
        public := [1, 0] } ∧
    inputize csP xW =
      { values := [some 4, some 5, none],
        gates := [{ a := 1, x := 2, b := 95, y := 0, c := 0, z := 2, d := 0,
                    e := 94 }],
        tracking := false, public := [1, 2] } ∧
    (0 : Nat) < (inputize csP n1).values.length :=
  ⟨(c6_inputize_exposes_pure_witness_slots csP n1).1 (by decide),
   (c6_inputize_exposes_pure_witness_slots csP xW).2.1 (by decide),
   (c6_inputize_exposes_pure_witness_slots csP n1).2.2 (by decide) (by decide)
     0 (by decide)⟩

/-- Claim C7 (code bug evidence): at equal canonical byte widths (two
64-bit limbs, 16 repr bytes) with the source field element 42 below both
moduli — precisely the claim's hypotheses — the forward conversion panics in
its copy loop: `to_ref[8*i..].copy_from_slice(..)` hands the whole 16-byte
tail as destination for an 8-byte source at `i = 0` (mod.rs line 30), so the
round trip errors instead of returning 42.  (The reverse loop at line 48
uses the correctly ranged chunk `buff_ref[8*i..8*(i+1)]`.) -/
theorem c7_roundtrip_panics_on_multilimb_width :
    (num_to_halo_fp { modulus := 1000, limbs := 2 }
        { modulus := 1000, reprBytes := 16 } 42).bind
      (halo_fp_to_num { modulus := 1000, reprBytes := 16 }
        { modulus := 1000, limbs := 2 }) =
      .error .SliceLengthMismatch ∧
    8 * ({ modulus := 1000, limbs := 2 } : NumFieldSpec).limbs =
      ({ modulus := 1000, reprBytes := 16 } : HaloFieldSpec).reprBytes ∧
    (42 : Nat) < ({ modulus := 1000, limbs := 2 } : NumFieldSpec).modulus ∧
    (42 : Nat) <
      ({ modulus := 1000, reprBytes := 16 } : HaloFieldSpec).modulus := by
  refine ⟨by decide, by decide, by decide, by decide⟩

/-- Claim C8 (code bug evidence): with equal byte widths of more than one
limb the forward conversion fails in the copy loop before any decode, with
an error that is neither `IncompatibleFieldWidth` nor `DecodeError` and not
a success — against the claimed trichotomy — even though the bytes being
copied would decode to the valid element 42. -/
theorem c8_conv_panics_before_decode :
    num_to_halo_fp { modulus := 1000, limbs := 2 }
        { modulus := 1000, reprBytes := 16 } 42 =
      .error .SliceLengthMismatch ∧
    ConvError.SliceLengthMismatch ≠ ConvError.IncompatibleFieldWidth ∧
    ConvError.SliceLengthMismatch ≠ ConvError.DecodeError := by
  refine ⟨by decide, by decide, by decide⟩

/-- Claim C5: the backend conversion sorts the public-index list ascending
before classification; a gate operand with witness index `i` is classified
as an instance reference positioned at `i`'s rank in the sorted public list
precisely when `i` occurs in the public list, and otherwise as a raw advice
value carrying the (converted) witness value or unknown; the returned
public-values vector lists the witness values at the public indices in
ascending index order.  (Rank is stated for a duplicate-free public list,
where it is well defined.) -/
theorem c5_backend_public_classification {F F2 : Type} (conv : F → F2)
    (cs : CS F) (hnd : cs.public.Nodup) :
    (sortPublic cs.public).Sorted (· ≤ ·) ∧
    (sortPublic cs.public).Perm cs.public ∧
    (∀ i, i ∈ cs.public →
      get_value (cs.values.map (Option.map conv)) (sortPublic cs.public) i =
        .ValueInstance ((sortPublic cs.public).indexOf i)) ∧
    (∀ i, i ∉ cs.public →
      get_value (cs.values.map (Option.map conv)) (sortPublic cs.public) i =
        .ValueAdvice ((cs.values.getD i none).map conv)) ∧
    ((fawkes_cs_to_halo conv cs).1.gates = cs.gates.map (fun gg =>
      ({ x := get_value (cs.values.map (Option.map conv))
              (sortPublic cs.public) gg.x,
         y := get_value (cs.values.map (Option.map conv))
              (sortPublic cs.public) gg.y,
         z := get_value (cs.values.map (Option.map conv))
              (sortPublic cs.public) gg.z,
         a := conv gg.a, b := conv gg.b, c := conv gg.c, d := conv gg.d,
         e := conv gg.e } : FawkesGateValues F2))) ∧
    ((fawkes_cs_to_halo conv cs).2 =
      (sortPublic cs.public).map (fun i => (cs.values.getD i none).map conv)) := by
  have hsorted : (sortPublic cs.public).Sorted (· ≤ ·) :=
    List.sorted_insertionSort _ _
  have hperm : (sortPublic cs.public).Perm cs.public :=
    List.perm_insertionSort _ _
  have hnd2 : (sortPublic cs.public).Nodup := hperm.nodup_iff.mpr hnd
  refine ⟨hsorted, hperm, ?_, ?_, rfl, ?_⟩
  · intro i hi
    have hi2 : i ∈ sortPublic cs.public := hperm.mem_iff.mpr hi
    obtain ⟨p, hp⟩ := binary_search_mem hsorted hi2
    obtain ⟨hplen, hpt⟩ := binary_search_ok hp
    have h1 : (sortPublic cs.public).get ⟨p, hplen⟩ = i := by
      rw [List.get_eq_getElem, ← List.getD_eq_getElem _ 0 hplen]
      exact hpt
    have hilen : (sortPublic cs.public).indexOf i <
        (sortPublic cs.public).length := List.indexOf_lt_length.mpr hi2
    have h2 : (sortPublic cs.public).get
        ⟨(sortPublic cs.public).indexOf i, hilen⟩ = i :=
      List.indexOf_get hilen
    have h3 := (hnd2.get_inj_iff).mp (h1.trans h2.symm)
    have hpidx : p = (sortPublic cs.public).indexOf i :=
      congrArg Fin.val h3
    rw [get_value, hp, hpidx]
  · intro i hi
    cases hbs : binary_search (sortPublic cs.public) i with
    | ok p =>
      exfalso
      obtain ⟨hplen, hpt⟩ := binary_search_ok hbs
      apply hi
      apply hperm.mem_iff.mp
      rw [← hpt, List.getD_eq_getElem _ 0 hplen]
      exact List.getElem_mem hplen
    | error q =>
      rw [get_value, hbs, getD_map_conv]
  · show (sortPublic cs.public).map
        (fun i => (cs.values.map (Option.map conv)).getD i none) = _
    exact List.map_congr_left (fun a _ => getD_map_conv conv cs.values a)

/-- Claim C5 witness: the classification and the public-values vector of
`cs5W` (public indices inserted as `[2, 0]`) over the identity conversion on
`ZMod 97`: index 2 ranks second in the sorted list `[0, 2]`, the non-public
index 1 stays advice, and the inputs are the values at indices 0 and 2. -/
theorem c5_backend_public_classification_witness :
    get_value (cs5W.values.map (Option.map (fun v : ZMod 97 => v)))
        (sortPublic cs5W.public) 2 = ValueReference.ValueInstance 1 ∧
    get_value (cs5W.values.map (Option.map (fun v : ZMod 97 => v)))
        (sortPublic cs5W.public) 1 = ValueReference.ValueAdvice none ∧
    (fawkes_cs_to_halo (fun v : ZMod 97 => v) cs5W).2 = [some 5, some 7] :=
  ⟨(c5_backend_public_classification (fun v : ZMod 97 => v) cs5W
      (by decide)).2.2.1 2 (by decide),
   (c5_backend_public_classification (fun v : ZMod 97 => v) cs5W
      (by decide)).2.2.2.1 1 (by decide),
   ((c5_backend_public_classification (fun v : ZMod 97 => v) cs5W
      (by decide)).2.2.2.2.2).trans (by decide)⟩

/-- Claim C10: the `Signal` lifting over `SizedVec<T, L>` routes the
constraint-system handle through component `0`, so `get_cs` — and with it
`derive_const`, `derive_alloc`, and `is_eq` (which seeds its accumulator via
`derive_const`) — is defined precisely when `L ≥ 1`; for `L = 0` the index
is out of bounds and every one of them is undefined. -/
theorem c10_sizedvec_ops_need_nonempty {T H V K B : Type} {L : Nat}
    (csOf : T → H) (fromConst : H → V → K) (allocT : H → Option V → K)
    (fromConstB : H → Bool → B) (andB : B → B → B) (isEqT : T → T → B)
    (v w : SizedVec T L) (value : V) (oval : Option V) :
    ((v.get_cs csOf).isSome = true ↔ 0 < L) ∧
    ((v.derive_const csOf fromConst value).isSome = true ↔ 0 < L) ∧
    ((v.derive_alloc csOf allocT oval).isSome = true ↔ 0 < L) ∧
    ((SizedVec.is_eq csOf fromConstB andB isEqT v w).isSome = true ↔
      0 < L) := by
  have hb : (v.get_cs csOf).isSome = true ↔ 0 < L := by
    obtain ⟨items, hlen⟩ := v
    cases items with
    | nil =>
      simp only [List.length_nil] at hlen
      subst hlen
      simp [SizedVec.get_cs]
    | cons a t =>
      have hpos : 0 < L := by
        rw [← hlen]
        simp
      simp [SizedVec.get_cs, hpos]
  cases hg : v.get_cs csOf with
  | none =>
    rw [hg] at hb
    simp only [Option.isSome_none, Bool.false_eq_true, false_iff] at hb
    refine ⟨?_, ?_, ?_, ?_⟩ <;>
      simp [SizedVec.is_eq, SizedVec.derive_const, SizedVec.derive_alloc,
        hg, hb]
  | some c =>
    rw [hg] at hb
    simp only [Option.isSome_some, true_iff] at hb
    refine ⟨?_, ?_, ?_, ?_⟩ <;>
      simp [SizedVec.is_eq, SizedVec.derive_const, SizedVec.derive_alloc,
        hg, hb]

end Fawkes
